import Mathlib

/-!
Verification of the search-resource provisioning scripts
(`src/search/index_utils.py`, `src/search/common_utils.py`,
`data/upload_data.py`) against their natural-language specification.

Strings are modelled by Lean's `String` (a structure over `List Char`);
most reasoning happens at the `List Char` level.  Python's `str.replace`
(replace every non-overlapping occurrence, scanning left to right, not
rescanning replacement text) is modelled by `replaceL` below.  I/O
(file reads, network calls) is abstracted: template file contents and
remote-call outcomes are passed as explicit arguments.
-/

/-- Fuel-driven worker for Python `str.replace` on character lists.
The fuel is an upper bound on the length of the remaining input; it makes
the recursion structural (hence kernel-reducible) while `replaceFuel_congr`
shows the result does not depend on the fuel once it is at least the
input length.  Matches Python semantics including the empty-pattern case
(`"ab".replace("", "-") == "-a-b-"`). -/
def replaceFuel (k v : List Char) : Nat → List Char → List Char
  | _, [] => if k.isEmpty then v else []
  | 0, s => s
  | fuel + 1, c :: cs =>
    if k.isEmpty then v ++ c :: replaceFuel k v fuel cs
    else if k.isPrefixOf (c :: cs) then v ++ replaceFuel k v fuel (cs.drop (k.length - 1))
    else c :: replaceFuel k v fuel cs

/-- Python `s.replace(k, v)` on character lists: replace every
non-overlapping occurrence of `k` in `s` by `v`, scanning left to right. -/
def replaceL (k v s : List Char) : List Char := replaceFuel k v s.length s

/-- Python `s.replace(k, v)` on strings (argument order: subject, pattern,
replacement). -/
def pyReplace (s k v : String) : String := ⟨replaceL k.data v.data s.data⟩

/-- The renderer loop of `_prepare_json_schema` at the character-list level:
one `str.replace` pass per map entry, in the map's (insertion) order. -/
def renderL (template : List Char) (values : List (List Char × List Char)) : List Char :=
  values.foldl (fun acc kv => replaceL kv.1 kv.2 acc) template

/-- The renderer `_prepare_json_schema` from `src/search/index_utils.py`, with the file
read abstracted to its text: starting from the template text, apply
`indexer_def.replace(key, values_to_assign[key])` for each entry of the
token map in order (Python dicts iterate in insertion order, so the map is
an association list). -/
def prepare_json_schema (template_text : String) (values_to_assign : List (String × String)) : String :=
  ⟨renderL template_text.data (values_to_assign.map fun kv => (kv.1.data, kv.2.data))⟩

/-- A character allowed inside a placeholder token name: anything except
the delimiters. -/
def isNameChar (c : Char) : Bool := !(c == '<') && !(c == '>')

/-- A list of characters free of the placeholder delimiters. -/
def bracketFree (l : List Char) : Bool := l.all isNameChar

/-- A valid placeholder token name: nonempty and delimiter-free. -/
def isName (n : List Char) : Bool := !n.isEmpty && bracketFree n

/-- The literal text of the placeholder token `<n>`. -/
def tokStr (n : List Char) : List Char := '<' :: (n ++ ['>'])

/-- Whether `t` is the literal text of some placeholder token `<token_name>`. -/
def isToken (t : List Char) : Bool :=
  t.head? = some '<' && t.getLast? = some '>' && decide (3 ≤ t.length) &&
    bracketFree (t.drop 1).dropLast

/-- All placeholder-token substrings of `s` (with multiplicity per
enclosing suffix/prefix; only membership is ever used). -/
def tokensIn (s : List Char) : List (List Char) :=
  (s.tails.flatMap List.inits).filter isToken

/-- Whether `s` contains a literal placeholder token of the form `<token_name>`
as a substring. -/
def containsTokenB (s : List Char) : Bool := !(tokensIn s).isEmpty

theorem replaceFuel_congr (k v : List Char) :
    ∀ f1 f2 s, s.length ≤ f1 → s.length ≤ f2 →
      replaceFuel k v f1 s = replaceFuel k v f2 s := by
  intro f1
  induction f1 with
  | zero =>
    intro f2 s h1 _
    have hs : s = [] := List.eq_nil_of_length_eq_zero (Nat.le_zero.mp h1)
    subst hs
    cases f2 <;> rfl
  | succ f ih =>
    intro f2 s h1 h2
    cases s with
    | nil => cases f2 <;> rfl
    | cons c cs =>
      cases f2 with
      | zero => exact absurd h2 (by simp)
      | succ g =>
        simp only [List.length_cons] at h1 h2
        have hcs : cs.length ≤ f := by omega
        have hcs2 : cs.length ≤ g := by omega
        have hdrop : (cs.drop (k.length - 1)).length ≤ cs.length := by
          simp [List.length_drop]
        simp only [replaceFuel]
        split
        · rw [ih g cs hcs hcs2]
        · split
          · rw [ih g _ (le_trans hdrop hcs) (le_trans hdrop hcs2)]
          · rw [ih g cs hcs hcs2]

theorem replaceL_nil (k v : List Char) :
    replaceL k v [] = if k.isEmpty then v else [] := rfl

theorem replaceL_cons_no_match (k v : List Char) (c : Char) (cs : List Char)
    (hk : k.isEmpty = false) (h : k.isPrefixOf (c :: cs) = false) :
    replaceL k v (c :: cs) = c :: replaceL k v cs := by
  simp only [replaceL, List.length_cons, replaceFuel, hk, h]
  simp

theorem replaceL_cons_match (k v : List Char) (c : Char) (cs : List Char)
    (hk : k.isEmpty = false) (h : k.isPrefixOf (c :: cs) = true) :
    replaceL k v (c :: cs) = v ++ replaceL k v (cs.drop (k.length - 1)) := by
  simp only [replaceL, List.length_cons, replaceFuel, hk, h]
  simp only [Bool.false_eq_true, if_false, if_true]
  congr 1
  exact replaceFuel_congr k v cs.length (cs.drop (k.length - 1)).length _
    (le_trans (by simp [List.length_drop]) le_rfl) le_rfl

theorem replaceL_append_self (k v s : List Char) (hk : k ≠ []) :
    replaceL k v (k ++ s) = v ++ replaceL k v s := by
  cases k with
  | nil => exact absurd rfl hk
  | cons c k' =>
    have hpre : (c :: k').isPrefixOf (c :: (k' ++ s)) = true :=
      List.isPrefixOf_iff_prefix.mpr ⟨s, rfl⟩
    have h := replaceL_cons_match (c :: k') v c (k' ++ s) rfl hpre
    simpa [List.drop_left] using h

theorem isPrefixOf_cons_of_head_ne {k : List Char} {c : Char} {cs : List Char}
    (h : k.head? = some '<') (hc : c ≠ '<') : k.isPrefixOf (c :: cs) = false := by
  cases k with
  | nil => simp at h
  | cons kh kt =>
    simp only [List.head?_cons, Option.some.injEq] at h
    subst h
    have hne : ('<' == c) = false := beq_eq_false_iff_ne.mpr fun h' => hc h'.symm
    simp [List.isPrefixOf, hne]

theorem isEmpty_false_of_head {k : List Char} (h : k.head? = some '<') :
    k.isEmpty = false := by
  cases k with
  | nil => simp at h
  | cons kh kt => rfl

theorem replaceL_append_no_head (k v : List Char) (hk : k.head? = some '<') :
    ∀ a s : List Char, (∀ c ∈ a, c ≠ '<') →
      replaceL k v (a ++ s) = a ++ replaceL k v s := by
  intro a
  induction a with
  | nil => intro s _; rfl
  | cons c a' ih =>
    intro s ha
    have hc : c ≠ '<' := ha c (List.mem_cons_self c a')
    have hstep := replaceL_cons_no_match k v c (a' ++ s) (isEmpty_false_of_head hk)
      (isPrefixOf_cons_of_head_ne hk hc)
    rw [List.cons_append, hstep, ih s fun d hd => ha d (List.mem_cons_of_mem c hd),
      List.cons_append]

theorem tokStr_ne_nil (n : List Char) : tokStr n ≠ [] := by simp [tokStr]

theorem tokStr_head (n : List Char) : (tokStr n).head? = some '<' := rfl

theorem bracketFree_mem {l : List Char} (h : bracketFree l = true) {c : Char}
    (hc : c ∈ l) : c ≠ '<' ∧ c ≠ '>' := by
  simp only [bracketFree, List.all_eq_true] at h
  have := h c hc
  simp only [isNameChar, Bool.and_eq_true, Bool.not_eq_true'] at this
  exact ⟨beq_eq_false_iff_ne.mp this.1, beq_eq_false_iff_ne.mp this.2⟩

theorem isName_parts {n : List Char} (h : isName n = true) :
    n ≠ [] ∧ bracketFree n = true := by
  simp only [isName, Bool.and_eq_true, Bool.not_eq_true'] at h
  refine ⟨?_, h.2⟩
  intro h'
  subst h'
  simp at h

theorem isToken_tokStr (n : List Char) (h : isName n = true) :
    isToken (tokStr n) = true := by
  obtain ⟨hne, hbf⟩ := isName_parts h
  have hlen : 0 < n.length := List.length_pos.mpr hne
  simp only [isToken, tokStr, Bool.and_eq_true, decide_eq_true_eq]
  refine ⟨⟨⟨rfl, ?_⟩, ?_⟩, ?_⟩
  · rw [show '<' :: (n ++ ['>']) = ('<' :: n) ++ ['>'] from rfl]
    exact List.getLast?_concat _
  · simp only [List.length_cons, List.length_append, List.length_singleton]
    omega
  · rw [show ('<' :: (n ++ ['>'])).drop 1 = n ++ ['>'] from rfl, List.dropLast_concat]
    exact hbf

theorem isToken_exists (t : List Char) (h : isToken t = true) :
    ∃ n, isName n = true ∧ t = tokStr n := by
  simp only [isToken, Bool.and_eq_true, decide_eq_true_eq] at h
  obtain ⟨⟨⟨hhead, hlast⟩, hlen⟩, hbf⟩ := h
  cases t with
  | nil => simp at hhead
  | cons c rest =>
    simp only [List.head?_cons, Option.some.injEq] at hhead
    subst hhead
    have hrlen : 2 ≤ rest.length := by
      simp only [List.length_cons] at hlen; omega
    have hrne : rest ≠ [] := by
      intro h'; subst h'; simp at hrlen
    obtain ⟨d, x, hdx⟩ : ∃ d x, rest = d ++ [x] :=
      ⟨rest.dropLast, rest.getLast hrne, (List.dropLast_append_getLast hrne).symm⟩
    subst hdx
    have hx : x = '>' := by
      rw [show '<' :: (d ++ [x]) = ('<' :: d) ++ [x] from rfl, List.getLast?_concat] at hlast
      exact Option.some_injective _ hlast
    subst hx
    have hdbf : bracketFree d = true := by
      rw [show ('<' :: (d ++ ['>'])).drop 1 = d ++ ['>'] from rfl, List.dropLast_concat] at hbf
      exact hbf
    have hdne : d ≠ [] := by
      intro h'; subst h'; simp at hrlen
    refine ⟨d, ?_, rfl⟩
    simp [isName, hdne, hdbf]


theorem name_append_gt_unique :
    ∀ m n s : List Char, bracketFree m = true → bracketFree n = true →
      m ++ ['>'] <+: n ++ ['>'] ++ s → m = n := by
  intro m
  induction m with
  | nil =>
    intro n s _ hn h
    cases n with
    | nil => rfl
    | cons c n' =>
      rw [List.nil_append] at h
      rw [List.cons_append, List.cons_append] at h
      obtain ⟨hc, -⟩ := List.cons_prefix_cons.mp h
      have := (bracketFree_mem hn (List.mem_cons_self c n')).2
      exact absurd hc.symm this
  | cons c m' ih =>
    intro n s hm hn h
    have hc := bracketFree_mem hm (List.mem_cons_self c m')
    cases n with
    | nil =>
      rw [List.nil_append, List.cons_append] at h
      obtain ⟨hc', -⟩ := List.cons_prefix_cons.mp h
      exact absurd hc' hc.2
    | cons d n' =>
      rw [List.cons_append] at h
      rw [List.cons_append, List.cons_append] at h
      obtain ⟨hcd, htail⟩ := List.cons_prefix_cons.mp h
      have hm' : bracketFree m' = true := by
        simp only [bracketFree, List.all_cons, Bool.and_eq_true] at hm
        exact hm.2
      have hn' : bracketFree n' = true := by
        simp only [bracketFree, List.all_cons, Bool.and_eq_true] at hn
        exact hn.2
      rw [ih n' s hm' hn' htail, hcd]

theorem tokStr_prefix_eq (m n s : List Char) (hm : bracketFree m = true)
    (hn : bracketFree n = true) (h : tokStr m <+: tokStr n ++ s) : m = n := by
  simp only [tokStr] at h
  rw [List.cons_append] at h
  obtain ⟨-, htail⟩ := List.cons_prefix_cons.mp h
  exact name_append_gt_unique m n s hm hn htail

theorem replaceL_tokStr_ne (m n : List Char) (v s : List Char)
    (hm : bracketFree m = true) (hn : bracketFree n = true) (hne : m ≠ n) :
    replaceL (tokStr m) v (tokStr n ++ s) = tokStr n ++ replaceL (tokStr m) v s := by
  have hk : (tokStr m).isEmpty = false := isEmpty_false_of_head (tokStr_head m)
  have hnp : (tokStr m).isPrefixOf ('<' :: ((n ++ ['>']) ++ s)) = false := by
    by_contra hcon
    have hpre : tokStr m <+: tokStr n ++ s := by
      rw [show tokStr n ++ s = '<' :: ((n ++ ['>']) ++ s) from rfl]
      exact List.isPrefixOf_iff_prefix.mp (eq_true_of_ne_false hcon)
    exact hne (tokStr_prefix_eq m n s hm hn hpre)
  have hstep := replaceL_cons_no_match (tokStr m) v '<' ((n ++ ['>']) ++ s) hk hnp
  have hskip : replaceL (tokStr m) v ((n ++ ['>']) ++ s) =
      (n ++ ['>']) ++ replaceL (tokStr m) v s := by
    refine replaceL_append_no_head (tokStr m) v (tokStr_head m) (n ++ ['>']) s ?_
    intro c hc
    rcases List.mem_append.mp hc with h' | h'
    · exact (bracketFree_mem hn h').1
    · simp only [List.mem_singleton] at h'
      subst h'
      decide
  rw [show tokStr n ++ s = '<' :: ((n ++ ['>']) ++ s) from rfl, hstep, hskip]
  rfl

/-- A segment of a well-delimited template: either literal text containing
no placeholder delimiters, or a placeholder token with the given name.
A template text is well-delimited when it flattens from such a list. -/
inductive TmplSeg where
  | text : List Char → TmplSeg
  | tok : List Char → TmplSeg
deriving DecidableEq

/-- The template text denoted by a list of segments. -/
def flattenSegs : List TmplSeg → List Char
  | [] => []
  | TmplSeg.text t :: rest => t ++ flattenSegs rest
  | TmplSeg.tok n :: rest => tokStr n ++ flattenSegs rest

/-- Well-formedness of one segment: literal text is delimiter-free and
token names are valid. -/
def goodSeg : TmplSeg → Bool
  | TmplSeg.text t => bracketFree t
  | TmplSeg.tok n => isName n

/-- Well-formedness of a segment list. -/
def goodSegs (l : List TmplSeg) : Bool := l.all goodSeg

/-- The structural effect of one replacement pass on one segment: the
tokens named `n` become the replacement value's segments, everything else
is unchanged. -/
def substSeg (n : List Char) (vsegs : List TmplSeg) : TmplSeg → List TmplSeg
  | TmplSeg.tok m => if m = n then vsegs else [TmplSeg.tok m]
  | TmplSeg.text t => [TmplSeg.text t]

/-- The structural effect of one replacement pass on a segment list. -/
def substSegs (n : List Char) (vsegs : List TmplSeg) (l : List TmplSeg) : List TmplSeg :=
  l.flatMap (substSeg n vsegs)

/-- The structural effect of a whole sequence of replacement passes. -/
def substFold (m : List (List Char × List TmplSeg)) (segs : List TmplSeg) : List TmplSeg :=
  m.foldl (fun acc nv => substSegs nv.1 nv.2 acc) segs

/-- Turn a map from token names to replacement segment lists into the
actual token map fed to the renderer. -/
def toTokenMap (m : List (List Char × List TmplSeg)) : List (List Char × List Char) :=
  m.map fun nv => (tokStr nv.1, flattenSegs nv.2)

theorem flattenSegs_append : ∀ a b : List TmplSeg,
    flattenSegs (a ++ b) = flattenSegs a ++ flattenSegs b := by
  intro a b
  induction a with
  | nil => rfl
  | cons seg rest ih =>
    cases seg with
    | text t => simp [flattenSegs, ih]
    | tok n => simp [flattenSegs, ih]

theorem goodSegs_append (a b : List TmplSeg) :
    goodSegs (a ++ b) = (goodSegs a && goodSegs b) := by
  simp [goodSegs, List.all_append]

theorem goodSegs_cons_parts {seg : TmplSeg} {rest : List TmplSeg}
    (h : goodSegs (seg :: rest) = true) : goodSeg seg = true ∧ goodSegs rest = true := by
  simpa [goodSegs] using h

theorem goodSegs_substSegs {n : List Char} {vsegs segs : List TmplSeg}
    (hs : goodSegs segs = true) (hv : goodSegs vsegs = true) :
    goodSegs (substSegs n vsegs segs) = true := by
  induction segs with
  | nil => rfl
  | cons seg rest ih =>
    obtain ⟨h1, h2⟩ := goodSegs_cons_parts hs
    have ih' := ih h2
    show goodSegs (substSeg n vsegs seg ++ substSegs n vsegs rest) = true
    rw [goodSegs_append]
    cases seg with
    | text t =>
      simp only [substSeg, Bool.and_eq_true]
      exact ⟨by simpa [goodSegs, goodSeg] using h1, ih'⟩
    | tok q =>
      simp only [substSeg, Bool.and_eq_true]
      by_cases hq : q = n
      · simp [hq, hv, ih']
      · simp only [if_neg hq]
        exact ⟨by simpa [goodSegs, goodSeg] using h1, ih'⟩

theorem replaceL_flattenSegs (n : List Char) (vsegs : List TmplSeg) (hn : isName n = true) :
    ∀ segs, goodSegs segs = true →
      replaceL (tokStr n) (flattenSegs vsegs) (flattenSegs segs) =
        flattenSegs (substSegs n vsegs segs) := by
  intro segs
  induction segs with
  | nil =>
    intro _
    simp [flattenSegs, substSegs, replaceL_nil, isEmpty_false_of_head (tokStr_head n)]
  | cons seg rest ih =>
    intro hgood
    obtain ⟨h1, h2⟩ := goodSegs_cons_parts hgood
    have hstep : substSegs n vsegs (seg :: rest) =
        substSeg n vsegs seg ++ substSegs n vsegs rest := by
      simp [substSegs]
    cases seg with
    | text t =>
      have hbf : bracketFree t = true := h1
      rw [show flattenSegs (TmplSeg.text t :: rest) = t ++ flattenSegs rest from rfl]
      rw [replaceL_append_no_head _ _ (tokStr_head n) t _
        (fun c hc => (bracketFree_mem hbf hc).1)]
      rw [ih h2, hstep]
      simp [substSeg, flattenSegs]
    | tok q =>
      have hq : isName q = true := h1
      rw [show flattenSegs (TmplSeg.tok q :: rest) = tokStr q ++ flattenSegs rest from rfl]
      by_cases hqn : q = n
      · subst hqn
        rw [replaceL_append_self _ _ _ (tokStr_ne_nil q), ih h2, hstep]
        simp [substSeg, flattenSegs_append]
      · rw [replaceL_tokStr_ne n q _ _ (isName_parts hn).2 (isName_parts hq).2
          (fun h => hqn h.symm)]
        rw [ih h2, hstep]
        simp [substSeg, fun h => hqn h, flattenSegs_append, flattenSegs]

theorem renderL_toTokenMap :
    ∀ (m : List (List Char × List TmplSeg)) (segs : List TmplSeg),
      goodSegs segs = true →
      (∀ nv ∈ m, isName nv.1 = true ∧ goodSegs nv.2 = true) →
      renderL (flattenSegs segs) (toTokenMap m) = flattenSegs (substFold m segs) := by
  intro m
  induction m with
  | nil => intro segs _ _; rfl
  | cons nv m' ih =>
    intro segs hgood hm
    obtain ⟨hname, hvgood⟩ := hm nv (List.mem_cons_self nv m')
    have hstep : renderL (flattenSegs segs) (toTokenMap (nv :: m')) =
        renderL (replaceL (tokStr nv.1) (flattenSegs nv.2) (flattenSegs segs)) (toTokenMap m') := by
      simp [renderL, toTokenMap]
    rw [hstep, replaceL_flattenSegs nv.1 nv.2 hname segs hgood,
      ih (substSegs nv.1 nv.2 segs) (goodSegs_substSegs hgood hvgood)
        (fun x hx => hm x (List.mem_cons_of_mem nv hx))]
    rfl

theorem tok_mem_substSegs {p n : List Char} {vsegs segs : List TmplSeg}
    (h : TmplSeg.tok p ∈ substSegs n vsegs segs) :
    TmplSeg.tok p ∈ vsegs ∨ (TmplSeg.tok p ∈ segs ∧ p ≠ n) := by
  obtain ⟨seg, hseg, hmem⟩ := List.mem_flatMap.mp h
  cases seg with
  | text t =>
    simp only [substSeg, List.mem_singleton] at hmem
    cases hmem
  | tok q =>
    by_cases hq : q = n
    · subst hq
      simp only [substSeg, if_pos rfl] at hmem
      exact Or.inl hmem
    · simp only [substSeg, if_neg hq, List.mem_singleton, TmplSeg.tok.injEq] at hmem
      subst hmem
      exact Or.inr ⟨hseg, hq⟩

theorem substFold_noTok {p : List Char} :
    ∀ (m : List (List Char × List TmplSeg)) (segs : List TmplSeg),
      TmplSeg.tok p ∉ segs → (∀ nv ∈ m, TmplSeg.tok p ∉ nv.2) →
      TmplSeg.tok p ∉ substFold m segs := by
  intro m
  induction m with
  | nil => intro segs hs _; exact hs
  | cons nv m' ih =>
    intro segs hs hm
    have hstep : substFold (nv :: m') segs = substFold m' (substSegs nv.1 nv.2 segs) := rfl
    rw [hstep]
    refine ih _ ?_ (fun x hx => hm x (List.mem_cons_of_mem nv hx))
    intro hmem
    rcases tok_mem_substSegs hmem with h' | h'
    · exact hm nv (List.mem_cons_self nv m') h'
    · exact hs h'.1

theorem substFold_covered {p : List Char} :
    ∀ (m : List (List Char × List TmplSeg)) (segs : List TmplSeg),
      (∀ q, TmplSeg.tok q ∈ segs → q ∈ m.map Prod.fst) →
      (∀ nv ∈ m, ∀ q, TmplSeg.tok q ∉ nv.2) →
      TmplSeg.tok p ∉ substFold m segs := by
  intro m
  induction m with
  | nil =>
    intro segs hcover _ hmem
    simpa using hcover p hmem
  | cons nv m' ih =>
    intro segs hcover hvals
    have hstep : substFold (nv :: m') segs = substFold m' (substSegs nv.1 nv.2 segs) := rfl
    rw [hstep]
    refine ih _ ?_ (fun x hx => hvals x (List.mem_cons_of_mem nv hx))
    intro q hq
    rcases tok_mem_substSegs hq with h' | h'
    · exact absurd h' (hvals nv (List.mem_cons_self nv m') q)
    · have := hcover q h'.1
      simp only [List.map_cons, List.mem_cons] at this
      rcases this with h'' | h''
      · exact absurd h'' h'.2
      · exact h''

theorem infix_skip_no_head {T : List Char} (hT : T.head? = some '<') :
    ∀ a s : List Char, (∀ c ∈ a, c ≠ '<') → T <:+: a ++ s → T <:+: s := by
  intro a
  induction a with
  | nil => intro s _ h; exact h
  | cons c a' ih =>
    intro s ha h
    obtain ⟨u, w, huw⟩ := h
    cases u with
    | nil =>
      cases T with
      | nil => simp at hT
      | cons th tt =>
        simp only [List.head?_cons, Option.some.injEq] at hT
        subst hT
        rw [List.nil_append, List.cons_append, List.cons_append] at huw
        have : '<' = c := (List.cons.injEq _ _ _ _).mp huw |>.1
        exact absurd this.symm (ha c (List.mem_cons_self c a'))
    | cons d u' =>
      rw [List.cons_append, List.cons_append] at huw
      have htail : u' ++ T ++ w = a' ++ s := (List.cons.injEq _ _ _ _).mp huw |>.2
      exact ih s (fun x hx => ha x (List.mem_cons_of_mem c hx)) ⟨u', w, htail⟩

theorem tokStr_infix_flattenSegs (p : List Char) (hp : isName p = true) :
    ∀ segs, goodSegs segs = true → tokStr p <:+: flattenSegs segs →
      TmplSeg.tok p ∈ segs := by
  intro segs
  induction segs with
  | nil =>
    intro _ h
    have := List.infix_nil.mp (by simpa [flattenSegs] using h)
    exact absurd this (tokStr_ne_nil p)
  | cons seg rest ih =>
    intro hgood h
    obtain ⟨h1, h2⟩ := goodSegs_cons_parts hgood
    cases seg with
    | text t =>
      have hbf : bracketFree t = true := h1
      rw [show flattenSegs (TmplSeg.text t :: rest) = t ++ flattenSegs rest from rfl] at h
      have := infix_skip_no_head (tokStr_head p) t (flattenSegs rest)
        (fun c hc => (bracketFree_mem hbf hc).1) h
      exact List.mem_cons_of_mem _ (ih h2 this)
    | tok q =>
      have hq : isName q = true := h1
      rw [show flattenSegs (TmplSeg.tok q :: rest) = tokStr q ++ flattenSegs rest from rfl] at h
      obtain ⟨u, w, huw⟩ := h
      cases u with
      | nil =>
        have hpre : tokStr p <+: tokStr q ++ flattenSegs rest := by
          rw [List.nil_append] at huw
          exact ⟨w, huw⟩
        have := tokStr_prefix_eq p q (flattenSegs rest) (isName_parts hp).2
          (isName_parts hq).2 hpre
        subst this
        exact List.mem_cons_self _ _
      | cons d u' =>
        rw [show tokStr q ++ flattenSegs rest = '<' :: ((q ++ ['>']) ++ flattenSegs rest)
          from rfl] at huw
        rw [List.cons_append, List.cons_append] at huw
        have htail : u' ++ tokStr p ++ w = (q ++ ['>']) ++ flattenSegs rest :=
          (List.cons.injEq _ _ _ _).mp huw |>.2
        have hinf : tokStr p <:+: (q ++ ['>']) ++ flattenSegs rest := ⟨u', w, htail⟩
        have hskip : tokStr p <:+: flattenSegs rest := by
          refine infix_skip_no_head (tokStr_head p) (q ++ ['>']) _ ?_ hinf
          intro c hc
          rcases List.mem_append.mp hc with h' | h'
          · exact (bracketFree_mem (isName_parts hq).2 h').1
          · simp only [List.mem_singleton] at h'
            subst h'
            decide
        exact List.mem_cons_of_mem _ (ih h2 hskip)

theorem tokensIn_mem_spec {t s : List Char} (h : t ∈ tokensIn s) :
    isToken t = true ∧ t <:+: s := by
  simp only [tokensIn, List.mem_filter] at h
  obtain ⟨hmem, htok⟩ := h
  obtain ⟨u, hu, ht⟩ := List.mem_flatMap.mp hmem
  refine ⟨htok, ?_⟩
  exact ((List.mem_inits t u).mp ht).isInfix.trans ((List.mem_tails u s).mp hu).isInfix

theorem containsTokenB_flattenSegs_false (segs : List TmplSeg)
    (hgood : goodSegs segs = true) (hno : ∀ p, TmplSeg.tok p ∉ segs) :
    containsTokenB (flattenSegs segs) = false := by
  by_contra hcon
  have htrue : containsTokenB (flattenSegs segs) = true := eq_true_of_ne_false hcon
  simp only [containsTokenB, Bool.not_eq_true', List.isEmpty_eq_false_iff_exists_mem] at htrue
  obtain ⟨t, ht⟩ := htrue
  obtain ⟨htok, hinf⟩ := tokensIn_mem_spec ht
  obtain ⟨n, hn, rfl⟩ := isToken_exists t htok
  exact hno n (tokStr_infix_flattenSegs n hn segs hgood hinf)

theorem goodSegs_substFold :
    ∀ (m : List (List Char × List TmplSeg)) (segs : List TmplSeg),
      goodSegs segs = true → (∀ nv ∈ m, goodSegs nv.2 = true) →
      goodSegs (substFold m segs) = true := by
  intro m
  induction m with
  | nil => intro segs hs _; exact hs
  | cons nv m' ih =>
    intro segs hs hm
    exact ih (substSegs nv.1 nv.2 segs)
      (goodSegs_substSegs hs (hm nv (List.mem_cons_self nv m')))
      (fun x hx => hm x (List.mem_cons_of_mem nv hx))

/-- One segment is covered by a list of token names: a token segment's name
appears in the list, literal text is always covered. -/
def segCovered (names : List (List Char)) : TmplSeg → Bool
  | TmplSeg.tok n => decide (n ∈ names)
  | TmplSeg.text _ => true

/-- Claim C1, as stated, is false of the code: with template `<a>` and the
token map `{<a> ↦ <b>}`, every placeholder token occurring in the template
(`<a>` is the only one) has a map entry, yet the rendered text `<b>` still
contains a literal placeholder token — the substitution value itself
introduced one. -/
theorem C1_substitution_completeness_counterexample :
    (∀ t ∈ tokensIn ("<a>" : String).data,
      t ∈ ([("<a>", "<b>")] : List (String × String)).map (fun kv => kv.1.data)) ∧
    containsTokenB (prepare_json_schema "<a>" [("<a>", "<b>")]).data = true := by
  constructor
  · decide
  · decide

/-- Claim C1 (amended): substitution completeness holds provided the
template is well-delimited (an alternation of delimiter-free literal text
and placeholder tokens), every map key is a placeholder token, every
substitution value is delimiter-free, and every token of the template has
a map entry; then the text rendered by `_prepare_json_schema` contains no
literal placeholder token. -/
theorem C1_substitution_completeness (tsegs : List TmplSeg)
    (m : List (List Char × List Char))
    (hgood : goodSegs tsegs = true)
    (hkeys : m.all (fun nv => isName nv.1 && bracketFree nv.2) = true)
    (hcover : tsegs.all (segCovered (m.map Prod.fst)) = true) :
    containsTokenB (renderL (flattenSegs tsegs)
      (m.map fun nv => (tokStr nv.1, nv.2))) = false := by
  have hmap : toTokenMap (m.map fun nv => (nv.1, [TmplSeg.text nv.2])) =
      m.map (fun nv => (tokStr nv.1, nv.2)) := by
    simp [toTokenMap, flattenSegs, List.map_map]
  have hkeys' : ∀ nv ∈ (m.map fun nv => (nv.1, [TmplSeg.text nv.2])),
      isName nv.1 = true ∧ goodSegs nv.2 = true := by
    intro nv hnv
    obtain ⟨x, hx, hxe⟩ := List.mem_map.mp hnv
    subst hxe
    have := (List.all_eq_true.mp hkeys) x hx
    simp only [Bool.and_eq_true] at this
    exact ⟨this.1, by simpa [goodSegs, goodSeg] using this.2⟩
  rw [← hmap, renderL_toTokenMap _ tsegs hgood hkeys']
  refine containsTokenB_flattenSegs_false _ ?_ ?_
  · exact goodSegs_substFold _ tsegs hgood
      (fun nv hnv => (hkeys' nv hnv).2)
  · intro p
    refine substFold_covered _ tsegs ?_ ?_
    · intro q hq
      have := (List.all_eq_true.mp hcover) (TmplSeg.tok q) hq
      simp only [segCovered, decide_eq_true_eq] at this
      simpa [List.map_map] using this
    · intro nv hnv q hq
      obtain ⟨x, hx, hxe⟩ := List.mem_map.mp hnv
      subst hxe
      simp at hq

theorem C1_substitution_completeness_witness :
    goodSegs [TmplSeg.text ['x'], TmplSeg.tok ['a'], TmplSeg.text ['y']] = true ∧
    ([(['a'], ['v'])] : List (List Char × List Char)).all
      (fun nv => isName nv.1 && bracketFree nv.2) = true ∧
    [TmplSeg.text ['x'], TmplSeg.tok ['a'], TmplSeg.text ['y']].all
      (segCovered (([(['a'], ['v'])] : List (List Char × List Char)).map Prod.fst)) = true ∧
    containsTokenB (renderL
      (flattenSegs [TmplSeg.text ['x'], TmplSeg.tok ['a'], TmplSeg.text ['y']])
      (([(['a'], ['v'])] : List (List Char × List Char)).map
        fun nv => (tokStr nv.1, nv.2))) = false :=
  ⟨by decide, by decide, by decide,
    C1_substitution_completeness _ _ (by decide) (by decide) (by decide)⟩

/-- Claim C2, as stated, is false of the code: with template `<a>` and the
insertion-ordered map `{<b> ↦ B, <a> ↦ <b>}`, the value substituted for
`<a>` equals the other token `<b>` of the map, yet no later pass replaces
the introduced occurrence — the pass for `<b>` already ran — so the final
text is `<b>`, not `B`. -/
theorem C2_substitution_collision_counterexample :
    prepare_json_schema "<a>" [("<b>", "B"), ("<a>", "<b>")] = "<b>" ∧
    ¬ ("B" : String).data <:+:
      (prepare_json_schema "<a>" [("<b>", "B"), ("<a>", "<b>")]).data := by
  constructor
  · decide
  · decide

/-- Claim C2 (amended): a second-pass replacement applies to an introduced
occurrence only when the other token's entry comes later in the map's
iteration order.  If an entry of the earlier portion `m1` substitutes a
value containing the token `<n2>`, and `(n2, v2)` follows `m1`, then the
render of the whole map equals the render of the remaining passes applied
to the `<n2>`-replacement of the `m1`-render (the later pass does replace
the introduced occurrence, substituting `v2` for it), and — provided
neither `v2` nor any later substitution value contains the token `<n2>` —
the token `<n2>` does not occur in the final rendered text.  Templates and
values are assumed well-delimited and keys token-shaped. -/
theorem C2_substitution_collision (tsegs : List TmplSeg)
    (m1 m2 : List (List Char × List TmplSeg)) (n2 k1 : List Char)
    (v2segs v1segs : List TmplSeg)
    (hgood : goodSegs tsegs = true)
    (hn2 : isName n2 = true)
    (hv2good : goodSegs v2segs = true)
    (hm1 : ∀ nv ∈ m1, isName nv.1 = true ∧ goodSegs nv.2 = true)
    (hm2 : ∀ nv ∈ m2, isName nv.1 = true ∧ goodSegs nv.2 = true)
    (_hk1 : (k1, v1segs) ∈ m1)
    (_hintro : TmplSeg.tok n2 ∈ v1segs)
    (hv2 : TmplSeg.tok n2 ∉ v2segs)
    (hm2v : ∀ nv ∈ m2, TmplSeg.tok n2 ∉ nv.2) :
    renderL (flattenSegs tsegs) (toTokenMap (m1 ++ (n2, v2segs) :: m2)) =
      renderL (replaceL (tokStr n2) (flattenSegs v2segs)
        (renderL (flattenSegs tsegs) (toTokenMap m1))) (toTokenMap m2) ∧
    ¬ tokStr n2 <:+:
      renderL (flattenSegs tsegs) (toTokenMap (m1 ++ (n2, v2segs) :: m2)) := by
  have hall : ∀ nv ∈ m1 ++ (n2, v2segs) :: m2,
      isName nv.1 = true ∧ goodSegs nv.2 = true := by
    intro nv hnv
    rcases List.mem_append.mp hnv with h | h
    · exact hm1 nv h
    · rcases List.mem_cons.mp h with h | h
      · subst h
        exact ⟨hn2, hv2good⟩
      · exact hm2 nv h
  constructor
  · simp [renderL, toTokenMap, List.map_append, List.foldl_append]
  · rw [renderL_toTokenMap _ _ hgood hall]
    intro hinf
    have hsplit : substFold (m1 ++ (n2, v2segs) :: m2) tsegs =
        substFold m2 (substSegs n2 v2segs (substFold m1 tsegs)) := by
      simp [substFold, List.foldl_append]
    have hgood1 : goodSegs (substFold m1 tsegs) = true :=
      goodSegs_substFold m1 tsegs hgood (fun nv hnv => (hm1 nv hnv).2)
    have hgood2 : goodSegs (substFold m2 (substSegs n2 v2segs (substFold m1 tsegs))) = true :=
      goodSegs_substFold m2 _ (goodSegs_substSegs hgood1 hv2good)
        (fun nv hnv => (hm2 nv hnv).2)
    rw [hsplit] at hinf
    have hmem := tokStr_infix_flattenSegs n2 hn2 _ hgood2 hinf
    have hnot : TmplSeg.tok n2 ∉ substSegs n2 v2segs (substFold m1 tsegs) := by
      intro hmem'
      rcases tok_mem_substSegs hmem' with h | h
      · exact hv2 h
      · exact h.2 rfl
    exact substFold_noTok m2 _ hnot hm2v hmem

theorem C2_substitution_collision_witness :
    renderL (flattenSegs [TmplSeg.tok ['a']])
      (toTokenMap ([(['a'], [TmplSeg.tok ['b']])] ++ (['b'], [TmplSeg.text ['B']]) :: [])) =
      renderL (replaceL (tokStr ['b']) (flattenSegs [TmplSeg.text ['B']])
        (renderL (flattenSegs [TmplSeg.tok ['a']])
          (toTokenMap [(['a'], [TmplSeg.tok ['b']])]))) (toTokenMap []) ∧
    ¬ tokStr ['b'] <:+:
      renderL (flattenSegs [TmplSeg.tok ['a']])
        (toTokenMap ([(['a'], [TmplSeg.tok ['b']])] ++ (['b'], [TmplSeg.text ['B']]) :: [])) :=
  C2_substitution_collision [TmplSeg.tok ['a']] [(['a'], [TmplSeg.tok ['b']])] []
    ['b'] ['a'] [TmplSeg.text ['B']] [TmplSeg.tok ['b']]
    (by decide) (by decide) (by decide)
    (by decide) (by decide) (by decide) (by decide) (by decide) (by decide)

/-- The builder `_get_storage_conn_string` from `src/search/index_utils.py`: pure
f-string formatting of the identity-based storage connection string.
Parameter order as in the source: subscription id, storage account name,
resource group name. -/
def _get_storage_conn_string (subscription_id storage_account_name resource_group_name : String) : String :=
  "ResourceId=/subscriptions/" ++ subscription_id ++
    "/resourceGroups/" ++ resource_group_name ++ "/providers/Microsoft.Storage" ++
    "/storageAccounts/" ++ storage_account_name ++ ";"

/-- The deserialized remote representation of a data-source connection
(`SearchIndexerDataSourceConnection` of the Azure SDK), abstracted to the
one field the code manipulates plus an opaque remainder. -/
structure SearchIndexerDataSourceConnection where
  connection_string : String
  rest_of_fields : String
deriving DecidableEq

/-- The success-path data flow of `create_or_update_datasource` from
`src/search/index_utils.py`: build the connection string, render the
data-source template, deserialize it (the SDK's `deserialize` is an
external collaborator, so it is a parameter), then explicitly overwrite
the deserialized object's `connection_string` field before the remote
create-or-update call.  The returned value is the object passed to
`create_or_update_data_source_connection`. -/
def create_or_update_datasource_flow
    (deserialize : String → SearchIndexerDataSourceConnection)
    (datasource_name datasource_file ai_search_uri : String)
    (subscription_id resource_group_name storage_account_name container_name : String) :
    SearchIndexerDataSourceConnection :=
  let conn_string := _get_storage_conn_string subscription_id storage_account_name
    resource_group_name
  let definition := prepare_json_schema datasource_file
    [("<connection_string>", conn_string),
     ("<container_name>", container_name),
     ("<data_source_name>", datasource_name)]
  let data_source_connection := deserialize definition
  { data_source_connection with connection_string := conn_string }

/-- The error-log message of `create_or_update_index`. -/
def index_error_log (index_name e : String) : String :=
  "Failed to create or update the index '" ++ index_name ++ "': " ++ e

/-- The error-log message of `create_or_update_datasource`. -/
def datasource_error_log (datasource_name e : String) : String :=
  "Failed to create or update the data source '" ++ datasource_name ++ "': " ++ e

/-- The error-log message of `create_or_update_skillset`. -/
def skillset_error_log (skillset_name e : String) : String :=
  "Failed to create or update the skillset '" ++ skillset_name ++ "': " ++ e

/-- The error-log message of `create_or_update_indexer`. -/
def indexer_error_log (indexer_name e : String) : String :=
  "Failed to create or update the indexer '" ++ indexer_name ++ "': " ++ e

/-- The try/except wrapper of `create_or_update_index`: the body (client
construction, render, deserialize, remote call — abstracted to one
fallible outcome) either succeeds, or its exception is logged with the
index name and re-raised unchanged.  Result: (error logs, outcome). -/
def create_or_update_index_run (index_name : String) (body : Except String Unit) :
    List String × Except String Unit :=
  match body with
  | Except.ok _ => ([], Except.ok ())
  | Except.error e => ([index_error_log index_name e], Except.error e)

/-- The try/except wrapper of `create_or_update_datasource`. -/
def create_or_update_datasource_run (datasource_name : String) (body : Except String Unit) :
    List String × Except String Unit :=
  match body with
  | Except.ok _ => ([], Except.ok ())
  | Except.error e => ([datasource_error_log datasource_name e], Except.error e)

/-- The try/except wrapper of `create_or_update_skillset`. -/
def create_or_update_skillset_run (skillset_name : String) (body : Except String Unit) :
    List String × Except String Unit :=
  match body with
  | Except.ok _ => ([], Except.ok ())
  | Except.error e => ([skillset_error_log skillset_name e], Except.error e)

/-- The try/except wrapper of `create_or_update_indexer`. -/
def create_or_update_indexer_run (indexer_name : String) (body : Except String Unit) :
    List String × Except String Unit :=
  match body with
  | Except.ok _ => ([], Except.ok ())
  | Except.error e => ([indexer_error_log indexer_name e], Except.error e)

/-- The four provisioning steps of `main`, in source order. -/
inductive ProvStep where
  | index
  | datasource
  | skillset
  | indexer
deriving DecidableEq

/-- The fixed invocation order of `main`. -/
def provisionOrder : List ProvStep :=
  [ProvStep.index, ProvStep.datasource, ProvStep.skillset, ProvStep.indexer]

/-- Outcome of one provisioner body, supplied by the environment. -/
def stepBody : Option String → Except String Unit
  | none => Except.ok ()
  | some e => Except.error e

/-- The name derivation of `main` (`src/search/index_utils.py` lines
352–355): the four resource names formed from the base name. -/
def derived_resource_names (base_index_name : String) : String × String × String × String :=
  (base_index_name ++ "-index", base_index_name ++ "-ds",
    base_index_name ++ "-skills", base_index_name ++ "-indexer")

/-- The orchestration of `main` from `src/search/index_utils.py`: derive
the four resource names, then run Index, DataSource, Skillset, Indexer in
that order, stopping at the first step whose body raises.  Remote
behaviour is abstracted by `failAt`, giving each step's body outcome.
Returns (steps invoked, error logs emitted, final outcome: `none` for a
clean run, `some e` when exception `e` propagated out).  Info-level
progress logs are omitted from the model. -/
def mainModel (base_index_name : String) (failAt : ProvStep → Option String) :
    List ProvStep × List String × Option String :=
  match derived_resource_names base_index_name with
  | (index_name, datasource_name, skillset_name, indexer_name) =>
    match create_or_update_index_run index_name (stepBody (failAt ProvStep.index)) with
    | (logs1, Except.error e) => ([ProvStep.index], logs1, some e)
    | (logs1, Except.ok _) =>
      match create_or_update_datasource_run datasource_name
          (stepBody (failAt ProvStep.datasource)) with
      | (logs2, Except.error e) =>
        ([ProvStep.index, ProvStep.datasource], logs1 ++ logs2, some e)
      | (logs2, Except.ok _) =>
        match create_or_update_skillset_run skillset_name
            (stepBody (failAt ProvStep.skillset)) with
        | (logs3, Except.error e) =>
          ([ProvStep.index, ProvStep.datasource, ProvStep.skillset],
            logs1 ++ logs2 ++ logs3, some e)
        | (logs3, Except.ok _) =>
          match create_or_update_indexer_run indexer_name
              (stepBody (failAt ProvStep.indexer)) with
          | (logs4, Except.error e) =>
            ([ProvStep.index, ProvStep.datasource, ProvStep.skillset, ProvStep.indexer],
              logs1 ++ logs2 ++ logs3 ++ logs4, some e)
          | (logs4, Except.ok _) =>
            ([ProvStep.index, ProvStep.datasource, ProvStep.skillset, ProvStep.indexer],
              logs1 ++ logs2 ++ logs3 ++ logs4, none)

theorem infix_in_log (pre n mid e : String) :
    n.data <:+: (pre ++ n ++ mid ++ e).data := by
  refine ⟨pre.data, (mid ++ e).data, ?_⟩
  simp [String.data_append, List.append_assoc]

theorem mainModel_invoked_in_order (base : String) (g : ProvStep → Option String) :
    (mainModel base g).1 <+: provisionOrder := by
  cases hgi : g ProvStep.index with
  | some e1 =>
    simp only [mainModel, derived_resource_names, hgi, stepBody, create_or_update_index_run]
    exact ⟨[ProvStep.datasource, ProvStep.skillset, ProvStep.indexer], rfl⟩
  | none =>
    cases hgd : g ProvStep.datasource with
    | some e2 =>
      simp only [mainModel, derived_resource_names, hgi, hgd, stepBody,
        create_or_update_index_run, create_or_update_datasource_run]
      exact ⟨[ProvStep.skillset, ProvStep.indexer], rfl⟩
    | none =>
      cases hgs : g ProvStep.skillset with
      | some e3 =>
        simp only [mainModel, derived_resource_names, hgi, hgd, hgs, stepBody,
          create_or_update_index_run, create_or_update_datasource_run,
          create_or_update_skillset_run]
        exact ⟨[ProvStep.indexer], rfl⟩
      | none =>
        cases hgx : g ProvStep.indexer with
        | some e4 =>
          simp only [mainModel, derived_resource_names, hgi, hgd, hgs, hgx, stepBody,
            create_or_update_index_run, create_or_update_datasource_run,
            create_or_update_skillset_run, create_or_update_indexer_run]
          exact ⟨[], by simp [provisionOrder]⟩
        | none =>
          simp only [mainModel, derived_resource_names, hgi, hgd, hgs, hgx, stepBody,
            create_or_update_index_run, create_or_update_datasource_run,
            create_or_update_skillset_run, create_or_update_indexer_run]
          exact ⟨[], by simp [provisionOrder]⟩

/-- Claim C3: `main` invokes the provisioners in the fixed order Index,
DataSource, Skillset, Indexer, and if any step raises, no later step is
invoked.  For any environment `g` the invoked list is a prefix of that
order; when the Index body raises, only Index is invoked and its error
surfaces; when the DataSource body raises after Index succeeded, only
Index and DataSource are invoked; when the Skillset body raises after
Index and DataSource succeeded, exactly Index, DataSource, Skillset are
invoked, the Indexer step is never invoked, the run surfaces the
exception itself, and the single error log names the derived skillset
resource `base ++ "-skills"`; when only the Indexer body raises, all
four steps have been invoked (none comes after Indexer) and its error
surfaces. -/
theorem C3_orchestration_order_fail_fast (base : String)
    (failAt g gI gD gX : ProvStep → Option String) (e eI eD eX : String)
    (h1 : failAt ProvStep.index = none)
    (h2 : failAt ProvStep.datasource = none)
    (h3 : failAt ProvStep.skillset = some e)
    (hI : gI ProvStep.index = some eI)
    (hD1 : gD ProvStep.index = none)
    (hD2 : gD ProvStep.datasource = some eD)
    (hX1 : gX ProvStep.index = none)
    (hX2 : gX ProvStep.datasource = none)
    (hX3 : gX ProvStep.skillset = none)
    (hX4 : gX ProvStep.indexer = some eX) :
    (mainModel base g).1 <+: provisionOrder ∧
    (mainModel base failAt).1 = [ProvStep.index, ProvStep.datasource, ProvStep.skillset] ∧
    ProvStep.indexer ∉ (mainModel base failAt).1 ∧
    (mainModel base failAt).2.2 = some e ∧
    (mainModel base failAt).2.1 = [skillset_error_log (base ++ "-skills") e] ∧
    (base ++ "-skills").data <:+: (skillset_error_log (base ++ "-skills") e).data ∧
    (mainModel base gI).1 = [ProvStep.index] ∧
    ProvStep.datasource ∉ (mainModel base gI).1 ∧
    ProvStep.skillset ∉ (mainModel base gI).1 ∧
    ProvStep.indexer ∉ (mainModel base gI).1 ∧
    (mainModel base gI).2.2 = some eI ∧
    (mainModel base gD).1 = [ProvStep.index, ProvStep.datasource] ∧
    ProvStep.skillset ∉ (mainModel base gD).1 ∧
    ProvStep.indexer ∉ (mainModel base gD).1 ∧
    (mainModel base gD).2.2 = some eD ∧
    (mainModel base gX).1 = provisionOrder ∧
    (mainModel base gX).2.2 = some eX := by
  have hrun : mainModel base failAt =
      ([ProvStep.index, ProvStep.datasource, ProvStep.skillset],
        [skillset_error_log (base ++ "-skills") e], some e) := by
    simp only [mainModel, derived_resource_names, h1, h2, h3, stepBody,
      create_or_update_index_run, create_or_update_datasource_run,
      create_or_update_skillset_run]
    simp
  have hrunI : mainModel base gI =
      ([ProvStep.index], [index_error_log (base ++ "-index") eI], some eI) := by
    simp only [mainModel, derived_resource_names, hI, stepBody,
      create_or_update_index_run]
  have hrunD : mainModel base gD =
      ([ProvStep.index, ProvStep.datasource],
        [datasource_error_log (base ++ "-ds") eD], some eD) := by
    simp only [mainModel, derived_resource_names, hD1, hD2, stepBody,
      create_or_update_index_run, create_or_update_datasource_run]
    simp
  have hrunX : mainModel base gX =
      (provisionOrder, [indexer_error_log (base ++ "-indexer") eX], some eX) := by
    simp only [mainModel, derived_resource_names, provisionOrder, hX1, hX2, hX3, hX4,
      stepBody, create_or_update_index_run, create_or_update_datasource_run,
      create_or_update_skillset_run, create_or_update_indexer_run]
    simp
  refine ⟨mainModel_invoked_in_order base g, ?_, ?_, ?_, ?_, ?_, ?_, ?_, ?_, ?_, ?_,
    ?_, ?_, ?_, ?_, ?_, ?_⟩
  · rw [hrun]
  · rw [hrun]; simp
  · rw [hrun]
  · rw [hrun]
  · exact infix_in_log "Failed to create or update the skillset '"
      (base ++ "-skills") "': " e
  · rw [hrunI]
  · rw [hrunI]; simp
  · rw [hrunI]; simp
  · rw [hrunI]; simp
  · rw [hrunI]
  · rw [hrunD]
  · rw [hrunD]; simp
  · rw [hrunD]; simp
  · rw [hrunD]
  · rw [hrunX]
  · rw [hrunX]

/-- Environment for the C3 witness: the skillset body raises, everything
else succeeds. -/
def failDocsSkillset : ProvStep → Option String
  | ProvStep.skillset => some "boom"
  | _ => none

/-- Environment for the C3 witness: the index body raises. -/
def failDocsIndex : ProvStep → Option String
  | ProvStep.index => some "boomI"
  | _ => none

/-- Environment for the C3 witness: the datasource body raises. -/
def failDocsDatasource : ProvStep → Option String
  | ProvStep.datasource => some "boomD"
  | _ => none

/-- Environment for the C3 witness: the indexer body raises. -/
def failDocsIndexer : ProvStep → Option String
  | ProvStep.indexer => some "boomX"
  | _ => none

theorem C3_orchestration_order_fail_fast_witness :
    (mainModel "docs" failDocsSkillset).1 <+: provisionOrder ∧
    (mainModel "docs" failDocsSkillset).1 =
      [ProvStep.index, ProvStep.datasource, ProvStep.skillset] ∧
    ProvStep.indexer ∉ (mainModel "docs" failDocsSkillset).1 ∧
    (mainModel "docs" failDocsSkillset).2.2 = some "boom" ∧
    (mainModel "docs" failDocsSkillset).2.1 =
      [skillset_error_log ("docs" ++ "-skills") "boom"] ∧
    ("docs" ++ "-skills" : String).data <:+:
      (skillset_error_log ("docs" ++ "-skills") "boom").data ∧
    (mainModel "docs" failDocsIndex).1 = [ProvStep.index] ∧
    ProvStep.datasource ∉ (mainModel "docs" failDocsIndex).1 ∧
    ProvStep.skillset ∉ (mainModel "docs" failDocsIndex).1 ∧
    ProvStep.indexer ∉ (mainModel "docs" failDocsIndex).1 ∧
    (mainModel "docs" failDocsIndex).2.2 = some "boomI" ∧
    (mainModel "docs" failDocsDatasource).1 = [ProvStep.index, ProvStep.datasource] ∧
    ProvStep.skillset ∉ (mainModel "docs" failDocsDatasource).1 ∧
    ProvStep.indexer ∉ (mainModel "docs" failDocsDatasource).1 ∧
    (mainModel "docs" failDocsDatasource).2.2 = some "boomD" ∧
    (mainModel "docs" failDocsIndexer).1 = provisionOrder ∧
    (mainModel "docs" failDocsIndexer).2.2 = some "boomX" :=
  C3_orchestration_order_fail_fast "docs" failDocsSkillset failDocsSkillset
    failDocsIndex failDocsDatasource failDocsIndexer "boom" "boomI" "boomD" "boomX"
    rfl rfl rfl rfl rfl rfl rfl rfl rfl rfl

/-- Claim C4: in `create_or_update_datasource`, after deserializing the
rendered definition and before the remote call, the definition's
`connection_string` field is exactly the string built by
`_get_storage_conn_string` — whatever the deserializer returned for the
rendered connection field. -/
theorem C4_datasource_connection_overwrite
    (deserialize : String → SearchIndexerDataSourceConnection)
    (datasource_name datasource_file ai_search_uri : String)
    (subscription_id resource_group_name storage_account_name container_name : String) :
    (create_or_update_datasource_flow deserialize datasource_name datasource_file
      ai_search_uri subscription_id resource_group_name storage_account_name
      container_name).connection_string =
      _get_storage_conn_string subscription_id storage_account_name resource_group_name :=
  rfl

/-- Claim C5: the connection-string builder returns exactly the
identity-based resource reference, and in particular maps subscription
`s1`, resource group `rg1`, storage account `acct1` to the documented
literal. -/
theorem C5_connection_string_shape :
    (∀ subscription_id resource_group_name storage_account_name : String,
      _get_storage_conn_string subscription_id storage_account_name resource_group_name =
        "ResourceId=/subscriptions/" ++ subscription_id ++ "/resourceGroups/" ++
          resource_group_name ++ "/providers/Microsoft.Storage/storageAccounts/" ++
          storage_account_name ++ ";") ∧
    _get_storage_conn_string "s1" "acct1" "rg1" =
      "ResourceId=/subscriptions/s1/resourceGroups/rg1/providers/Microsoft.Storage/storageAccounts/acct1;" := by
  have hsplit : ∀ X : String,
      X ++ "/providers/Microsoft.Storage" ++ "/storageAccounts/" =
        X ++ "/providers/Microsoft.Storage/storageAccounts/" := by
    intro X
    rw [String.append_assoc]
    congr 1
  constructor
  · intro subscription_id resource_group_name storage_account_name
    simp only [_get_storage_conn_string]
    rw [hsplit]
  · decide

/-- Claim C6: the orchestrator derives the four resource names by
appending exactly `-index`, `-ds`, `-skills`, `-indexer` to the base
name; in particular base `docs` yields `docs-index`, `docs-ds`,
`docs-skills`, `docs-indexer`. -/
theorem C6_name_derivation :
    (∀ base_index_name : String,
      derived_resource_names base_index_name =
        (base_index_name ++ "-index", base_index_name ++ "-ds",
          base_index_name ++ "-skills", base_index_name ++ "-indexer")) ∧
    derived_resource_names "docs" =
      ("docs-index", "docs-ds", "docs-skills", "docs-indexer") :=
  ⟨fun _ => rfl, by decide⟩

/-- Claim C7: each of the four provisioning operations, when any step of
its body raises, emits exactly one error log that contains the failing
resource's name and re-raises the same exception — the outcome is the
original error, with no retry. -/
theorem C7_fail_log_reraise
    (index_name datasource_name skillset_name indexer_name e : String) :
    (create_or_update_index_run index_name (Except.error e) =
        ([index_error_log index_name e], Except.error e) ∧
      index_name.data <:+: (index_error_log index_name e).data) ∧
    (create_or_update_datasource_run datasource_name (Except.error e) =
        ([datasource_error_log datasource_name e], Except.error e) ∧
      datasource_name.data <:+: (datasource_error_log datasource_name e).data) ∧
    (create_or_update_skillset_run skillset_name (Except.error e) =
        ([skillset_error_log skillset_name e], Except.error e) ∧
      skillset_name.data <:+: (skillset_error_log skillset_name e).data) ∧
    (create_or_update_indexer_run indexer_name (Except.error e) =
        ([indexer_error_log indexer_name e], Except.error e) ∧
      indexer_name.data <:+: (indexer_error_log indexer_name e).data) :=
  ⟨⟨rfl, infix_in_log "Failed to create or update the index '" index_name "': " e⟩,
    ⟨rfl, infix_in_log "Failed to create or update the data source '" datasource_name "': " e⟩,
    ⟨rfl, infix_in_log "Failed to create or update the skillset '" skillset_name "': " e⟩,
    ⟨rfl, infix_in_log "Failed to create or update the indexer '" indexer_name "': " e⟩⟩

/-- Python's `str.strip()` whitespace set (ASCII part, which is all the
repository's inputs use). -/
def pyIsSpace (c : Char) : Bool :=
  c == ' ' || c == '\t' || c == '\n' || c == '\r' || c == '\x0b' || c == '\x0c'

/-- Python `value.strip()`: drop whitespace from both ends. -/
def pyStrip (s : String) : String :=
  ⟨((s.data.dropWhile pyIsSpace).reverse.dropWhile pyIsSpace).reverse⟩

/-- Python `str.isalnum()`: nonempty and every character alphanumeric
(ASCII reading of alphanumeric; the repository's inputs are ASCII). -/
def pyIsAlnum (s : String) : Bool := !s.data.isEmpty && s.data.all Char.isAlphanum

/-- The validator `valid_name` from `src/search/common_utils.py`.  `argparse.ArgumentTypeError`
is modelled as `Except.error` carrying the message; the validated name is
returned unchanged on success. -/
def valid_name (value : String) : Except String String :=
  if value = "" ∨ pyStrip value = "" then
    Except.error ("'" ++ value ++ "' is not a valid name")
  else if !pyIsAlnum (pyReplace (pyReplace value "-" "") "_" "") then
    Except.error ("'" ++ value ++
      "' contains invalid characters. Look at the documentation for naming conventions.")
  else Except.ok value

/-- Characters urllib allows in a scheme after its leading letter. -/
def schemeChar (c : Char) : Bool := c.isAlphanum || c == '+' || c == '-' || c == '.'

/-- Modelled from the Python standard library (outside this repository):
`urllib.parse.urlparse`'s scheme extraction, as used by `absolute_url`.
Returns (scheme, remainder): the text before the first `:` is the scheme
when it is nonempty, starts with a letter and uses only scheme
characters; otherwise the scheme is empty and the whole input remains. -/
def urlparse_scheme_rest (url : List Char) : List Char × List Char :=
  let pre := url.takeWhile (fun c => !(c == ':'))
  if pre.length < url.length &&
      (match pre with
        | [] => false
        | c :: cs => c.isAlpha && cs.all schemeChar) then
    (pre.map Char.toLower, url.drop (pre.length + 1))
  else ([], url)

/-- Modelled from the Python standard library (outside this repository):
`urllib.parse.urlparse`'s netloc extraction — present only after `//`,
running to the next `/`, `?` or `#`. -/
def urlparse_netloc : List Char → List Char
  | '/' :: '/' :: r => r.takeWhile (fun c => !(c == '/') && !(c == '?') && !(c == '#'))
  | _ => []

/-- The validator `absolute_url` from `src/search/common_utils.py`: reject unless the
parsed URL has both a scheme and a netloc. -/
def absolute_url (value : String) : Except String String :=
  if (urlparse_scheme_rest value.data).1.isEmpty ∨
      (urlparse_netloc (urlparse_scheme_rest value.data).2).isEmpty then
    Except.error ("'" ++ value ++ "' is not a valid absolute URL")
  else Except.ok value

/-- POSIX `os.sep`, the path separator used by the upload utility's
blob-name derivation. -/
def python_os_sep : String := "/"

/-- Lines 56–59 of `data/upload_data.py`: the blob name is the file's
path relative to the local folder with `file_subpath.replace(os.sep, "_")`
applied. -/
def upload_blob_name (file_subpath : String) : String :=
  pyReplace file_subpath python_os_sep "_"

theorem replaceL_singleton (c0 : Char) (v : List Char) :
    ∀ s, replaceL [c0] v s = s.flatMap (fun c => if c = c0 then v else [c]) := by
  intro s
  induction s with
  | nil => rfl
  | cons c cs ih =>
    by_cases hc : c = c0
    · subst hc
      have hpre : ([c] : List Char).isPrefixOf (c :: cs) = true := by
        simp [List.isPrefixOf]
      rw [replaceL_cons_match [c] v c cs rfl hpre]
      simpa using congrArg (v ++ ·) ih
    · have hne : (c0 == c) = false := beq_eq_false_iff_ne.mpr fun h => hc h.symm
      have hpre : ([c0] : List Char).isPrefixOf (c :: cs) = false := by
        simp [List.isPrefixOf, hne]
      rw [replaceL_cons_no_match [c0] v c cs rfl hpre]
      simp [ih, hc]

/-- Claim C8: the safe-name predicate rejects `bad name!` with the
invalid-characters error and returns `valid-name_1` unchanged, and the
absolute-URL predicate rejects `not-a-url` and returns
`https://example.com/path` unchanged. -/
theorem C8_validator_examples :
    valid_name "bad name!" = Except.error
      ("'bad name!' contains invalid characters. Look at the documentation for naming conventions.") ∧
    valid_name "valid-name_1" = Except.ok "valid-name_1" ∧
    absolute_url "not-a-url" = Except.error "'not-a-url' is not a valid absolute URL" ∧
    absolute_url "https://example.com/path" = Except.ok "https://example.com/path" := by
  refine ⟨?_, ?_, ?_, ?_⟩
  · rfl
  · rfl
  · rfl
  · rfl

theorem flatMap_to_map (c0 d : Char) :
    ∀ l : List Char,
      l.flatMap (fun c => if c = c0 then [d] else [c]) =
        l.map (fun c => if c = c0 then d else c) := by
  intro l
  induction l with
  | nil => rfl
  | cons c cs ih =>
    by_cases hc : c = c0 <;> simp [hc, ih]

/-- Claim C9: the blob name derived by the upload utility for a scanned
file equals the file's path relative to the local folder with every path
separator replaced by an underscore. -/
theorem C9_blob_name_flattening (file_subpath : String) :
    (upload_blob_name file_subpath).data =
      file_subpath.data.map (fun c => if c = '/' then '_' else c) := by
  show replaceL ['/'] ['_'] file_subpath.data = _
  rw [replaceL_singleton, flatMap_to_map]

theorem pyStrip_no_space (s : String) (h : ∀ c ∈ s.data, pyIsSpace c = false) :
    pyStrip s = s := by
  have h1 : s.data.dropWhile pyIsSpace = s.data := by
    cases hd : s.data with
    | nil => rfl
    | cons c cs =>
      have := h c (by rw [hd]; exact List.mem_cons_self c cs)
      simp [List.dropWhile_cons, this]
  have h2 : s.data.reverse.dropWhile pyIsSpace = s.data.reverse := by
    cases hd : s.data.reverse with
    | nil => rfl
    | cons c cs =>
      have hc : c ∈ s.data := by
        refine List.mem_reverse.mp ?_
        rw [hd]
        exact List.mem_cons_self c cs
      simp [List.dropWhile_cons, h c hc]
  show (⟨((s.data.dropWhile pyIsSpace).reverse.dropWhile pyIsSpace).reverse⟩ : String) = s
  rw [h1, h2, List.reverse_reverse]

theorem flatMap_remove (c0 : Char) :
    ∀ l : List Char,
      l.flatMap (fun c => if c = c0 then ([] : List Char) else [c]) =
        l.filter (fun c => !(c == c0)) := by
  intro l
  induction l with
  | nil => rfl
  | cons c cs ih =>
    by_cases hc : c = c0 <;> simp [hc, ih]

/-- Claim C10: `valid_name` raises on every nonempty string made solely
of hyphens and underscores — removing `-` and `_` leaves the empty
string, whose `isalnum()` is false, so the invalid-characters error is
raised. -/
theorem C10_hyphen_underscore_rejected (s : String)
    (hne : s ≠ "")
    (hchars : ∀ c ∈ s.data, c = '-' ∨ c = '_') :
    valid_name s = Except.error
      ("'" ++ s ++
        "' contains invalid characters. Look at the documentation for naming conventions.") := by
  have hstrip : pyStrip s = s := by
    refine pyStrip_no_space s ?_
    intro c hc
    rcases hchars c hc with h | h <;> subst h <;> decide
  have hcond1 : ¬(s = "" ∨ pyStrip s = "") := by
    rintro (h | h)
    · exact hne h
    · rw [hstrip] at h
      exact hne h
  have h1 : (pyReplace s "-" "").data = s.data.filter (fun c => !(c == '-')) := by
    show replaceL ['-'] [] s.data = _
    rw [replaceL_singleton, flatMap_remove]
  have h2 : (pyReplace (pyReplace s "-" "") "_" "").data =
      (pyReplace s "-" "").data.filter (fun c => !(c == '_')) := by
    show replaceL ['_'] [] (pyReplace s "-" "").data = _
    rw [replaceL_singleton, flatMap_remove]
  have hnil : (pyReplace (pyReplace s "-" "") "_" "").data = [] := by
    rw [h2, h1]
    rw [List.filter_eq_nil_iff]
    intro c hc
    have hcs := List.mem_of_mem_filter hc
    have hcne := List.of_mem_filter hc
    rcases hchars c hcs with h | h
    · subst h
      simp at hcne
    · subst h
      simp
  have halnum : pyIsAlnum (pyReplace (pyReplace s "-" "") "_" "") = false := by
    simp [pyIsAlnum, hnil]
  rw [valid_name, if_neg hcond1, if_pos (by rw [halnum]; rfl)]

theorem C10_hyphen_underscore_rejected_witness :
    ("-" : String) ≠ "" ∧ (∀ c ∈ ("-" : String).data, c = '-' ∨ c = '_') ∧
    valid_name "-" = Except.error
      ("'" ++ "-" ++
        "' contains invalid characters. Look at the documentation for naming conventions.") :=
  ⟨by decide, by decide, C10_hyphen_underscore_rejected "-" (by decide) (by decide)⟩
